import Mathlib

/-!
Verification of `popen2` (src/common.h): a shallow embedding of the
subprocess I/O bridge.  The parent-side execution of `popen2` is modelled as a
deterministic function of the call arguments and of a `World` describing the
outcomes delivered by the operating system: the success of `pipe`/`fork`, the
sequence of `poll` passes (revents plus the result each `write`/`read` would
return in that pass), the result of `waitpid`, and the child's termination
status.  Ghost instrumentation records descriptor open/close events, the
`writelen` value at each close of the stdin write end, and the number of
`waitpid` calls, so that resource and ordering properties are statable.
Bytes are modelled as `Nat`; buffers as `List Nat`.
-/

namespace Popen2

/-- Parent-side pipe descriptors: `stdin_fd[0]`, `stdin_fd[1]`, `stdout_fd[0]`,
`stdout_fd[1]` in the source. -/
inductive Fd where
  | stdinRead : Fd
  | stdinWrite : Fd
  | stdoutRead : Fd
  | stdoutWrite : Fd
deriving DecidableEq

/-- Outcome of one successful `poll` call (lines 108-116): the revents
reported on `fds[0]` (the stdout read end: `pin` = POLLIN, `phup` = POLLHUP,
`poth` = any other bit) and on `fds[1]` (the stdin write end: `pout` =
POLLOUT, `poth1` = any other bit), plus the result a `write` (`wres`,
`none` = failure) or `read` (`rres`, `none` = failure, `some bs` = the bytes
delivered) would return if attempted during this pass. -/
structure PollPass where
  pin : Bool
  phup : Bool
  poth : Bool
  pout : Bool
  poth1 : Bool
  wres : Option Nat
  rres : Option (List Nat)
deriving DecidableEq

/-- One iteration of the pump loop as seen from the outside: either `poll`
itself fails (line 110), or it succeeds with the given outcomes. -/
inductive PollEvent where
  | fail : PollEvent
  | ok : PollPass → PollEvent
deriving DecidableEq

/-- Parent-side mutable state of the pump loop: `out` is the prefix of the
output buffer written so far (`readlen = out.length`), `writelen` the input
write cursor, `stdinOpen` whether `stdin_fd[1]` is still open
(`stdin_fd[1] >= 0`). -/
structure PumpState where
  out : List Nat
  writelen : Nat
  stdinOpen : Bool
deriving DecidableEq

/-- How the pump loop terminated: `ok` via the POLLHUP-only break (line 169),
`overflow` via the `readlen >= outlen` break (line 161, which does not set
`readlen` to -1), `err` via any error break (which sets `readlen = -1`). -/
inductive PumpExit where
  | ok : PumpExit
  | overflow : PumpExit
  | err : PumpExit
deriving DecidableEq

/-- Ghost trace entries: a `close(stdin_fd[1])` of the still-open descriptor
recording the current `writelen`, a successful `write` of `n` bytes, a
successful `read` delivering `n` bytes. -/
inductive GhostEv where
  | closeStdin : Nat → GhostEv
  | writeChunk : Nat → GhostEv
  | readChunk : Nat → GhostEv
deriving DecidableEq

/-- Result of one loop-body pass: break out of the loop with a `PumpExit`, or
continue with the new state; both carry the ghost events of the pass. -/
inductive StepRes where
  | brk : PumpState → PumpExit → List GhostEv → StepRes
  | cont : PumpState → List GhostEv → StepRes
deriving DecidableEq

/-- Write leg of the loop body (lines 119-138).  `none` models the
`write` failure break (`n < 0`, line 122).  A `close(stdin_fd[1])` event is
recorded only when the descriptor is actually open (closing the already
replaced value -1 is a no-op on any real descriptor). -/
def writeLeg (inlen : Nat) (s : PumpState) (p : PollPass) :
    Option (PumpState × List GhostEv) :=
  if p.pout then
    if s.writelen < inlen then
      match p.wres with
      | none => none
      | some n =>
        if s.writelen + n = inlen then
          some (⟨s.out, s.writelen + n, false⟩,
            GhostEv.writeChunk n ::
              (if s.stdinOpen then [GhostEv.closeStdin (s.writelen + n)]
               else []))
        else
          some (⟨s.out, s.writelen + n, s.stdinOpen⟩,
            [GhostEv.writeChunk n])
    else
      if s.writelen = inlen then
        some (⟨s.out, s.writelen, false⟩,
          if s.stdinOpen then [GhostEv.closeStdin s.writelen] else [])
      else
        some (⟨s.out, s.writelen, s.stdinOpen⟩, [])
  else
    some (s, [])

/-- Read leg and hang-up check of the loop body (lines 147-176), entered with
POLLOUT already cleared from `fds[1].revents` and `fds[1].revents = 0`
verified.  The read request size is `outlen - readlen` (line 148); reaching
`readlen >= outlen` breaks with `overflow` (line 161); after clearing POLLIN,
`revents == POLLHUP` alone breaks the loop normally (line 169) and any other
remaining bit is an error (line 172). -/
def readHup (outlen : Nat) (s1 : PumpState) (p : PollPass)
    (lg1 : List GhostEv) : StepRes :=
  if p.pin then
    match p.rres with
    | none => StepRes.brk s1 PumpExit.err lg1
    | some bs =>
      if outlen ≤ s1.out.length + bs.length then
        StepRes.brk ⟨s1.out ++ bs, s1.writelen, s1.stdinOpen⟩
          PumpExit.overflow (lg1 ++ [GhostEv.readChunk bs.length])
      else if p.phup && !p.poth then
        StepRes.brk ⟨s1.out ++ bs, s1.writelen, s1.stdinOpen⟩
          PumpExit.ok (lg1 ++ [GhostEv.readChunk bs.length])
      else if p.phup || p.poth then
        StepRes.brk ⟨s1.out ++ bs, s1.writelen, s1.stdinOpen⟩
          PumpExit.err (lg1 ++ [GhostEv.readChunk bs.length])
      else StepRes.cont ⟨s1.out ++ bs, s1.writelen, s1.stdinOpen⟩
        (lg1 ++ [GhostEv.readChunk bs.length])
  else
    if p.phup && !p.poth then StepRes.brk s1 PumpExit.ok lg1
    else if p.phup || p.poth then StepRes.brk s1 PumpExit.err lg1
    else StepRes.cont s1 lg1

/-- One pass of the pump loop body (lines 119-176): write leg first, then the
`fds[1].revents != 0` check (line 140), then the read leg and hang-up check. -/
def step (inlen outlen : Nat) (s : PumpState) (p : PollPass) : StepRes :=
  match writeLeg inlen s p with
  | none => StepRes.brk s PumpExit.err []
  | some (s1, lg1) =>
    if p.poth1 then StepRes.brk s1 PumpExit.err lg1
    else readHup outlen s1 p lg1

/-- Result of the whole pump loop: final state, how it exited (`none` when the
supplied event list ran out before a break, i.e. the loop would keep
polling), the list of loop-top states visited (in order), and the ghost
event log. -/
structure PumpResult where
  final : PumpState
  exit : Option PumpExit
  visited : List PumpState
  log : List GhostEv
deriving DecidableEq

/-- The pump loop (lines 107-177), driven by the sequence of poll outcomes. -/
def pump (inlen outlen : Nat) : PumpState → List PollEvent → PumpResult
  | s, [] => ⟨s, none, [s], []⟩
  | s, PollEvent.fail :: _ => ⟨s, some PumpExit.err, [s], []⟩
  | s, PollEvent.ok p :: es =>
    match step inlen outlen s p with
    | StepRes.brk s2 ex lg => ⟨s2, some ex, [s], lg⟩
    | StepRes.cont s2 lg =>
      let r := pump inlen outlen s2 es
      ⟨r.final, r.exit, s :: r.visited, lg ++ r.log⟩

/-- Termination status reported by `waitpid`: normal exit
(`WIFEXITED`, with `WEXITSTATUS` code) or anything else (signaled,
stopped...). -/
inductive ChildStatus where
  | exited : Nat → ChildStatus
  | notExited : ChildStatus
deriving DecidableEq

/-- Child-side behavior after the fork (lines 73-88): if the `exec` of the
command succeeds the child terminates however the command terminates;
if it fails the child exits with status 127 (line 87). -/
def childTermination (execOk : Bool) (st : ChildStatus) : ChildStatus :=
  if execOk then st else ChildStatus.exited 127

/-- Environment of one `popen2` call: outcomes the operating system delivers. -/
structure World where
  pipe1Ok : Bool
  pipe2Ok : Bool
  forkOk : Bool
  events : List PollEvent
  waitOk : Bool
  childStatus : ChildStatus
deriving DecidableEq

/-- Observable outcome of one `popen2` call: the return value, the parent-side
descriptors opened and (chronologically) closed, the pump result, the
`writelen` at the cleanup close of `stdin_fd[1]` (line 179) if that close
happened, and the number of `waitpid` calls made. -/
structure Run where
  ret : Int
  opened : List Fd
  closed : List Fd
  pumpRes : PumpResult
  cleanupCloseAt : Option Nat
  waits : Nat
deriving DecidableEq

/-- Initial pump state: nothing read or written, `stdin_fd[1]` open. -/
def initState : PumpState := ⟨[], 0, true⟩

/-- The `writelen` values recorded at the in-loop closes of `stdin_fd[1]`. -/
def closeVals (lg : List GhostEv) : List Nat :=
  lg.filterMap fun e =>
    match e with
    | GhostEv.closeStdin k => some k
    | _ => none

/-- The final `readlen` used as the non-negative return value (line 209):
-1 on the error breaks, the output cursor otherwise (also after the
`overflow` break, which does not set `readlen` to -1). -/
def readlenFinal (ex : PumpExit) (final : PumpState) : Int :=
  match ex with
  | PumpExit.err => -1
  | _ => (final.out.length : Int)

/-- Reap phase (lines 179-209): close `stdin_fd[1]` if still open, close
`stdout_fd[0]`, call `waitpid` once, then classify: `waitpid` failure is -1
(line 188), `WIFEXITED` with nonzero status `c` is `-c` (line 195), a child
that did not exit is -1 (line 199), an incomplete input write is -1
(line 204), otherwise the accumulated `readlen` (line 209). -/
def finishRun (inlen : Nat) (w : World) (pr : PumpResult) (ex : PumpExit) :
    Run :=
  let loopClosed : List Fd := (closeVals pr.log).map fun _ => Fd.stdinWrite
  let cleanup : Option Nat :=
    if pr.final.stdinOpen then some pr.final.writelen else none
  let closed : List Fd :=
    [Fd.stdinRead, Fd.stdoutWrite] ++ loopClosed ++
      (match cleanup with
       | some _ => [Fd.stdinWrite]
       | none => []) ++ [Fd.stdoutRead]
  let ret : Int :=
    if w.waitOk = false then -1
    else
      match w.childStatus with
      | ChildStatus.exited c =>
        if c ≠ 0 then -(c : Int)
        else if pr.final.writelen ≠ inlen then -1
        else readlenFinal ex pr.final
      | ChildStatus.notExited => -1
  ⟨ret, [Fd.stdinRead, Fd.stdinWrite, Fd.stdoutRead, Fd.stdoutWrite],
    closed, pr, cleanup, 1⟩

/-- The whole `popen2` call (lines 54-210).  Returns `none` only when the
pump loop would poll forever (the event list is exhausted without a break);
otherwise it returns the `Run` the call produces.  The two early error
returns (pipe failure, line 60, and fork failure, line 70) return -1 without
closing anything. -/
def popen2 (inp : List Nat) (outlen : Nat) (w : World) : Option Run :=
  if w.pipe1Ok = false then
    some ⟨-1, [], [], ⟨initState, none, [initState], []⟩, none, 0⟩
  else if w.pipe2Ok = false then
    some ⟨-1, [Fd.stdinRead, Fd.stdinWrite], [],
      ⟨initState, none, [initState], []⟩, none, 0⟩
  else if w.forkOk = false then
    some ⟨-1, [Fd.stdinRead, Fd.stdinWrite, Fd.stdoutRead, Fd.stdoutWrite],
      [], ⟨initState, none, [initState], []⟩, none, 0⟩
  else
    match (pump inp.length outlen initState w.events).exit with
    | none => none
    | some ex =>
      some (finishRun inp.length w (pump inp.length outlen initState w.events) ex)

/-- Evaluate a per-pass predicate along the trajectory the pump loop takes:
the predicate must hold of every event at the loop-top state at which it is
consumed; events after a break are unconstrained. -/
def evAll (inlen outlen : Nat) (P : PumpState → PollEvent → Bool) :
    PumpState → List PollEvent → Bool
  | _, [] => true
  | s, e :: es =>
    P s e &&
      match e with
      | PollEvent.fail => true
      | PollEvent.ok p =>
        match step inlen outlen s p with
        | StepRes.brk _ _ _ => true
        | StepRes.cont s2 _ => evAll inlen outlen P s2 es

/-- Kernel contract on `read`: it never delivers more than the requested
`outlen - readlen` bytes (line 148). -/
def wfReadP (outlen : Nat) (s : PumpState) (e : PollEvent) : Bool :=
  match e with
  | PollEvent.fail => true
  | PollEvent.ok p =>
    !p.pin ||
      match p.rres with
      | none => true
      | some bs => decide (bs.length ≤ outlen - s.out.length)

/-- The input write cursor after the write leg of a pass. -/
def postW (inlen : Nat) (s : PumpState) (p : PollPass) : Nat :=
  match writeLeg inlen s p with
  | some s1lg => s1lg.1.writelen
  | none => s.writelen

/-- A healthy pass: `poll` succeeds, no error revents bits, every attempted
`write` succeeds and accepts at most the requested number of bytes, every
attempted `read` succeeds and delivers at most the requested number of
bytes. -/
def healthyP (inlen outlen : Nat) (s : PumpState) (e : PollEvent) : Bool :=
  match e with
  | PollEvent.fail => false
  | PollEvent.ok p =>
    !p.poth && !p.poth1 &&
      (!(p.pout && decide (s.writelen < inlen)) ||
        match p.wres with
        | some n => decide (n ≤ inlen - s.writelen)
        | none => false) &&
      (!p.pin ||
        match p.rres with
        | some bs => decide (bs.length ≤ outlen - s.out.length)
        | none => false)

/-- Kernel fact used for the zero-input claim: as long as the parent still
watches the stdin write end, an empty pipe is writable, so `poll` reports
POLLOUT on it. -/
def writableP (s : PumpState) (e : PollEvent) : Bool :=
  match e with
  | PollEvent.fail => true
  | PollEvent.ok p => !s.stdinOpen || p.pout

/-- Environment of an identity-transform child: no error conditions, writes
and reads are well formed, every read delivers a further chunk of the input
bytes already written to the child (the child copies stdin to stdout
unchanged), a read passing POLLHUP either drains the child's whole output
(which is the whole input) or fills the output buffer, and a POLLHUP with no
pending POLLIN means the whole output has already been read. -/
def idChildP (inp : List Nat) (outlen : Nat) (s : PumpState)
    (e : PollEvent) : Bool :=
  match e with
  | PollEvent.fail => false
  | PollEvent.ok p =>
    !p.poth && !p.poth1 &&
      (!(p.pout && decide (s.writelen < inp.length)) ||
        match p.wres with
        | some n => decide (n ≤ inp.length - s.writelen)
        | none => false) &&
      (!p.pin ||
        match p.rres with
        | some bs =>
          decide (bs.length ≤ outlen - s.out.length) &&
            (s.out ++ bs).isPrefixOf (inp.take (postW inp.length s p)) &&
            (!p.phup ||
              (decide (s.out ++ bs = inp) ||
                decide (outlen ≤ s.out.length + bs.length)))
        | none => false) &&
      (!(p.phup && !p.pin) || decide (s.out = inp))

/-- No read is logged before the first close of the stdin write end. -/
def noReadBeforeClose (lg : List GhostEv) : Bool :=
  (lg.takeWhile fun e =>
      match e with
      | GhostEv.closeStdin _ => false
      | _ => true).all
    fun e =>
      match e with
      | GhostEv.readChunk _ => false
      | _ => true

/-- Worlds used to instantiate the theorems at concrete inputs. -/
def wId : World :=
  { pipe1Ok := true, pipe2Ok := true, forkOk := true,
    events := [
      PollEvent.ok ⟨false, false, false, true, false, some 2, none⟩,
      PollEvent.ok ⟨true, true, false, false, false, none, some [3, 4]⟩],
    waitOk := true, childStatus := ChildStatus.exited 0 }

/-- World of a child that writes five bytes (more than a capacity of four),
reads nothing, and exits with status 0: the first read delivers the four
requested bytes while a fifth remains buffered in the pipe. -/
def wOver : World :=
  { pipe1Ok := true, pipe2Ok := true, forkOk := true,
    events := [PollEvent.ok ⟨true, false, false, false, false, none,
      some [9, 9, 9, 9]⟩],
    waitOk := true, childStatus := ChildStatus.exited 0 }

/-- World in which the very first `poll` fails while input remains
unwritten. -/
def wPollFail (st : ChildStatus) : World :=
  { pipe1Ok := true, pipe2Ok := true, forkOk := true,
    events := [PollEvent.fail], waitOk := true, childStatus := st }

/-- World of a child that exits immediately without reading its input:
the first poll pass reports only POLLHUP on the stdout read end. -/
def wEarlyExit (st : ChildStatus) : World :=
  { pipe1Ok := true, pipe2Ok := true, forkOk := true,
    events := [PollEvent.ok ⟨false, true, false, false, false, none, none⟩],
    waitOk := true, childStatus := st }

/-- World in which `fork` fails after both pipes were created. -/
def wForkFail : World :=
  { pipe1Ok := true, pipe2Ok := true, forkOk := false,
    events := [], waitOk := true, childStatus := ChildStatus.exited 0 }

/-- World of a child with empty input that writes two bytes and exits 0:
first pass closes the stdin write end, second pass delivers the output and
hangs up. -/
def wZeroIn : World :=
  { pipe1Ok := true, pipe2Ok := true, forkOk := true,
    events := [
      PollEvent.ok ⟨false, false, false, true, false, none, none⟩,
      PollEvent.ok ⟨true, true, false, false, false, none, some [7, 7]⟩],
    waitOk := true, childStatus := ChildStatus.exited 0 }

/-- World of the zero-input race: the child writes nothing and exits 0
before the parent's first `poll`, so that poll reports POLLOUT together with
an error condition (POLLERR) on the stdin write end, and POLLHUP with no
data on the stdout read end. -/
def wZeroErr : World :=
  { pipe1Ok := true, pipe2Ok := true, forkOk := true,
    events := [PollEvent.ok ⟨false, true, false, true, true, none, none⟩],
    waitOk := true, childStatus := ChildStatus.exited 0 }

/-! Basic inversion lemmas about `popen2` and `finishRun`. -/

theorem popen2_inv {inp : List Nat} {outlen : Nat} {w : World} {run : Run}
    (h : popen2 inp outlen w = some run)
    (hp1 : w.pipe1Ok = true) (hp2 : w.pipe2Ok = true)
    (hf : w.forkOk = true) :
    ∃ ex, (pump inp.length outlen initState w.events).exit = some ex ∧
      run = finishRun inp.length w
        (pump inp.length outlen initState w.events) ex := by
  simp only [popen2, hp1, hp2, hf, if_neg, Bool.true_eq_false,
    if_false] at h
  cases hex : (pump inp.length outlen initState w.events).exit with
  | none => rw [hex] at h; simp at h
  | some ex =>
    rw [hex] at h
    simp only [Option.some.injEq] at h
    exact ⟨ex, rfl, h.symm⟩

theorem finishRun_pumpRes (inlen : Nat) (w : World) (pr : PumpResult)
    (ex : PumpExit) : (finishRun inlen w pr ex).pumpRes = pr := rfl

theorem finishRun_waits (inlen : Nat) (w : World) (pr : PumpResult)
    (ex : PumpExit) : (finishRun inlen w pr ex).waits = 1 := rfl

theorem finishRun_ret_nonzero_exit {inlen : Nat} {w : World}
    {pr : PumpResult} {ex : PumpExit} {c : Nat}
    (hw : w.waitOk = true) (hst : w.childStatus = ChildStatus.exited c)
    (hc : c ≠ 0) :
    (finishRun inlen w pr ex).ret = -(c : Int) := by
  simp [finishRun, hw, hst, hc]

theorem finishRun_ret_zero_incomplete {inlen : Nat} {w : World}
    {pr : PumpResult} {ex : PumpExit}
    (hw : w.waitOk = true) (hst : w.childStatus = ChildStatus.exited 0)
    (hwl : pr.final.writelen ≠ inlen) :
    (finishRun inlen w pr ex).ret = -1 := by
  simp [finishRun, hw, hst, hwl]

theorem finishRun_ret_zero_complete {inlen : Nat} {w : World}
    {pr : PumpResult} {ex : PumpExit}
    (hw : w.waitOk = true) (hst : w.childStatus = ChildStatus.exited 0)
    (hwl : pr.final.writelen = inlen) :
    (finishRun inlen w pr ex).ret = readlenFinal ex pr.final := by
  simp [finishRun, hw, hst, hwl]

/-! Structural lemmas about the write leg, one loop pass, and the pump
loop. -/

/-- The post state and ghost log of a loop pass, whether it broke or not. -/
def stepDest : StepRes → PumpState × List GhostEv
  | StepRes.brk s2 _ lg => (s2, lg)
  | StepRes.cont s2 lg => (s2, lg)

theorem writeLeg_out {inlen : Nat} {s : PumpState} {p : PollPass}
    {s1 : PumpState} {lg1 : List GhostEv}
    (h : writeLeg inlen s p = some (s1, lg1)) : s1.out = s.out := by
  unfold writeLeg at h
  repeat' split at h
  all_goals first
    | exact Option.noConfusion h
    | (simp only [Option.some.injEq, Prod.mk.injEq] at h
       obtain ⟨h1, h2⟩ := h
       subst h1
       subst h2
       rfl)

theorem writeLeg_close_acct {inlen : Nat} {s : PumpState} {p : PollPass}
    {s1 : PumpState} {lg1 : List GhostEv}
    (h : writeLeg inlen s p = some (s1, lg1)) :
    (closeVals lg1).length + (if s1.stdinOpen then 1 else 0) =
      (if s.stdinOpen then 1 else 0) := by
  unfold writeLeg at h
  repeat' split at h
  all_goals first
    | exact Option.noConfusion h
    | (simp only [Option.some.injEq, Prod.mk.injEq] at h
       obtain ⟨h1, h2⟩ := h
       subst h1
       subst h2
       simp_all [closeVals])

theorem writeLeg_close_vals {inlen : Nat} {s : PumpState} {p : PollPass}
    {s1 : PumpState} {lg1 : List GhostEv}
    (h : writeLeg inlen s p = some (s1, lg1)) :
    ∀ k ∈ closeVals lg1, k = inlen := by
  unfold writeLeg at h
  repeat' split at h
  all_goals first
    | exact Option.noConfusion h
    | (simp only [Option.some.injEq, Prod.mk.injEq] at h
       obtain ⟨h1, h2⟩ := h
       subst h1
       subst h2
       simp_all [closeVals])

theorem writeLeg_writelen_le {inlen : Nat} {s : PumpState} {p : PollPass}
    {s1 : PumpState} {lg1 : List GhostEv}
    (h : writeLeg inlen s p = some (s1, lg1)) : s.writelen ≤ s1.writelen := by
  unfold writeLeg at h
  repeat' split at h
  all_goals first
    | exact Option.noConfusion h
    | (simp only [Option.some.injEq, Prod.mk.injEq] at h
       obtain ⟨h1, h2⟩ := h
       subst h1
       subst h2
       simp)

theorem closeVals_append (a b : List GhostEv) :
    closeVals (a ++ b) = closeVals a ++ closeVals b := by
  simp [closeVals]

theorem closeVals_read (k : Nat) : closeVals [GhostEv.readChunk k] = [] := rfl

theorem step_close_acct (inlen outlen : Nat) (s : PumpState) (p : PollPass) :
    (closeVals (stepDest (step inlen outlen s p)).2).length +
      (if (stepDest (step inlen outlen s p)).1.stdinOpen then 1 else 0) =
      (if s.stdinOpen then 1 else 0) := by
  unfold step
  cases hw : writeLeg inlen s p with
  | none => simp [stepDest, closeVals]
  | some s1lg =>
    obtain ⟨s1, lg1⟩ := s1lg
    have hacct := writeLeg_close_acct hw
    dsimp only
    unfold readHup
    repeat' split
    all_goals simp_all [stepDest, closeVals_append, closeVals_read]

theorem step_close_vals (inlen outlen : Nat) (s : PumpState) (p : PollPass) :
    ∀ k ∈ closeVals (stepDest (step inlen outlen s p)).2, k = inlen := by
  unfold step
  cases hw : writeLeg inlen s p with
  | none => simp [stepDest, closeVals]
  | some s1lg =>
    obtain ⟨s1, lg1⟩ := s1lg
    have hvals := writeLeg_close_vals hw
    dsimp only
    unfold readHup
    repeat' split
    all_goals simp_all [stepDest, closeVals_append, closeVals_read]
    all_goals exact hvals

theorem wfReadP_elim {outlen : Nat} {s : PumpState} {p : PollPass}
    (h : wfReadP outlen s (PollEvent.ok p) = true) :
    ∀ bs, p.pin = true → p.rres = some bs →
      bs.length ≤ outlen - s.out.length := by
  intro bs hpin hr
  simp only [wfReadP, hpin, hr, Bool.not_true, Bool.false_or,
    decide_eq_true_eq] at h
  exact h

theorem step_out_le {inlen outlen : Nat} {s : PumpState} {p : PollPass}
    (hr : ∀ bs, p.pin = true → p.rres = some bs →
      bs.length ≤ outlen - s.out.length)
    (hle : s.out.length ≤ outlen) :
    (stepDest (step inlen outlen s p)).1.out.length ≤ outlen := by
  unfold step
  cases hw : writeLeg inlen s p with
  | none => simpa [stepDest] using hle
  | some s1lg =>
    obtain ⟨s1, lg1⟩ := s1lg
    have hout : s1.out = s.out := writeLeg_out hw
    dsimp only
    unfold readHup
    repeat' split
    all_goals simp_all [stepDest]
    all_goals omega

theorem pump_close_acct (inlen outlen : Nat) :
    ∀ (es : List PollEvent) (s : PumpState),
    (closeVals (pump inlen outlen s es).log).length +
      (if (pump inlen outlen s es).final.stdinOpen then 1 else 0) =
      (if s.stdinOpen then 1 else 0) := by
  intro es
  induction es with
  | nil => intro s; simp [pump, closeVals]
  | cons e es ih =>
    intro s
    cases e with
    | fail => simp [pump, closeVals]
    | ok p =>
      have hstep := step_close_acct inlen outlen s p
      cases hs : step inlen outlen s p with
      | brk s2 ex lg =>
        rw [hs] at hstep
        simp only [pump, hs]
        simpa [stepDest] using hstep
      | cont s2 lg =>
        rw [hs] at hstep
        have ihs := ih s2
        simp only [pump, hs, closeVals_append, List.length_append]
        dsimp [stepDest] at hstep
        omega

theorem pump_close_vals (inlen outlen : Nat) :
    ∀ (es : List PollEvent) (s : PumpState),
    ∀ k ∈ closeVals (pump inlen outlen s es).log, k = inlen := by
  intro es
  induction es with
  | nil => intro s; simp [pump, closeVals]
  | cons e es ih =>
    intro s
    cases e with
    | fail => simp [pump, closeVals]
    | ok p =>
      have hstep := step_close_vals inlen outlen s p
      cases hs : step inlen outlen s p with
      | brk s2 ex lg =>
        rw [hs] at hstep
        simp only [pump, hs]
        simpa [stepDest] using hstep
      | cont s2 lg =>
        rw [hs] at hstep
        dsimp [stepDest] at hstep
        have ihs := ih s2
        simp only [pump, hs, closeVals_append]
        intro k hk
        rcases List.mem_append.mp hk with hk1 | hk2
        · exact hstep k hk1
        · exact ihs k hk2

theorem evAll_cons_ok {inlen outlen : Nat} {P : PumpState → PollEvent → Bool}
    {s : PumpState} {p : PollPass} {es : List PollEvent}
    (h : evAll inlen outlen P s (PollEvent.ok p :: es) = true) :
    P s (PollEvent.ok p) = true ∧
    ∀ s2 lg, step inlen outlen s p = StepRes.cont s2 lg →
      evAll inlen outlen P s2 es = true := by
  simp only [evAll, Bool.and_eq_true] at h
  refine ⟨h.1, fun s2 lg hs => ?_⟩
  have h2 := h.2
  rw [hs] at h2
  exact h2

theorem pump_out_le (inlen outlen : Nat) :
    ∀ (es : List PollEvent) (s : PumpState),
    evAll inlen outlen (wfReadP outlen) s es = true →
    s.out.length ≤ outlen →
    (∀ t ∈ (pump inlen outlen s es).visited, t.out.length ≤ outlen) ∧
      (pump inlen outlen s es).final.out.length ≤ outlen := by
  intro es
  induction es with
  | nil =>
    intro s _ hle
    constructor
    · intro t ht
      simp [pump] at ht
      rw [ht]
      exact hle
    · exact hle
  | cons e es ih =>
    intro s hev hle
    cases e with
    | fail =>
      constructor
      · intro t ht
        simp [pump] at ht
        rw [ht]
        exact hle
      · exact hle
    | ok p =>
      obtain ⟨hP, hcont⟩ := evAll_cons_ok hev
      have hbound := @step_out_le inlen outlen s p (wfReadP_elim hP) hle
      cases hs : step inlen outlen s p with
      | brk s2 ex lg =>
        rw [hs] at hbound
        dsimp [stepDest] at hbound
        constructor
        · intro t ht
          simp [pump, hs] at ht
          rw [ht]
          exact hle
        · simpa [pump, hs] using hbound
      | cont s2 lg =>
        rw [hs] at hbound
        dsimp [stepDest] at hbound
        obtain ⟨ihv, ihf⟩ := ih s2 (hcont s2 lg hs) hbound
        constructor
        · intro t ht
          simp only [pump, hs, List.mem_cons] at ht
          rcases ht with ht | ht
          · rw [ht]; exact hle
          · exact ihv t ht
        · simpa [pump, hs] using ihf


/-- Placeholder run used only to state concrete-evaluation theorems. -/
def dummyRun : Run := ⟨0, [], [], ⟨initState, none, [initState], []⟩, none, 0⟩

/-- C2: the pump loop does terminate on overflow, but the return value is not
negative in every such call: with empty input, capacity 4 and a child that
writes five bytes and exits 0, the loop breaks with `overflow` after reading
the four requested bytes, and the call returns 4. -/
theorem overflow_can_return_positive :
    ∃ run, popen2 [] 4 wOver = some run ∧
      run.pumpRes.exit = some PumpExit.overflow ∧
      run.ret = 4 ∧ 0 ≤ run.ret := by
  have h : popen2 [] 4 wOver = some ((popen2 [] 4 wOver).getD dummyRun) := by
    decide
  exact ⟨_, h, by decide, by decide, by decide⟩

/-- C4: a child reaped as a normal exit with status `S`, `1 ≤ S ≤ 255`, makes
the call return `-S`; in particular a failed image replacement makes the
child exit with status 127 and the call return -127. -/
theorem nonzero_exit_returns_neg :
    (∀ (inp : List Nat) (outlen : Nat) (w : World) (run : Run) (S : Nat),
      popen2 inp outlen w = some run →
      w.pipe1Ok = true → w.pipe2Ok = true → w.forkOk = true →
      w.waitOk = true → w.childStatus = ChildStatus.exited S →
      1 ≤ S → S ≤ 255 → run.ret = -(S : Int)) ∧
    (∀ (inp : List Nat) (outlen : Nat) (w : World) (run : Run)
      (st : ChildStatus),
      popen2 inp outlen w = some run →
      w.pipe1Ok = true → w.pipe2Ok = true → w.forkOk = true →
      w.waitOk = true → w.childStatus = childTermination false st →
      run.ret = -127) := by
  constructor
  · intro inp outlen w run S h hp1 hp2 hf hw hst h1 _
    obtain ⟨ex, _, hrun⟩ := popen2_inv h hp1 hp2 hf
    rw [hrun]
    exact finishRun_ret_nonzero_exit hw hst (by omega)
  · intro inp outlen w run st h hp1 hp2 hf hw hst
    obtain ⟨ex, _, hrun⟩ := popen2_inv h hp1 hp2 hf
    rw [hrun]
    have hst127 : w.childStatus = ChildStatus.exited 127 := by
      rw [hst]; rfl
    have h127 : (127 : Nat) ≠ 0 := by omega
    exact finishRun_ret_nonzero_exit hw hst127 h127

/-- Instantiation of `nonzero_exit_returns_neg`: a child that exits with
status 5 without reading its three input bytes yields -5, and a child whose
exec failed yields -127. -/
theorem nonzero_exit_returns_neg_w :
    (∃ run, popen2 [1, 2, 3] 8 (wEarlyExit (ChildStatus.exited 5)) =
        some run ∧ run.ret = -5) ∧
    (∃ run, popen2 [1, 2, 3] 8
        (wEarlyExit (childTermination false ChildStatus.notExited)) =
        some run ∧ run.ret = -127) := by
  constructor
  · have h : popen2 [1, 2, 3] 8 (wEarlyExit (ChildStatus.exited 5)) =
        some ((popen2 [1, 2, 3] 8
          (wEarlyExit (ChildStatus.exited 5))).getD dummyRun) := by decide
    exact ⟨_, h, nonzero_exit_returns_neg.1 _ _ _ _ 5 h rfl rfl rfl rfl rfl
      (by decide) (by decide)⟩
  · have h : popen2 [1, 2, 3] 8
        (wEarlyExit (childTermination false ChildStatus.notExited)) =
        some ((popen2 [1, 2, 3] 8
          (wEarlyExit (childTermination false ChildStatus.notExited))).getD
            dummyRun) := by decide
    exact ⟨_, h, nonzero_exit_returns_neg.2 _ _ _ _ ChildStatus.notExited h
      rfl rfl rfl rfl rfl⟩

/-- C5: when the child exits with status 0 but the input write cursor does
not equal the input length at reap time, the call returns -1, never the
accumulated output count. -/
theorem incomplete_write_returns_neg_one
    {inp : List Nat} {outlen : Nat} {w : World} {run : Run}
    (h : popen2 inp outlen w = some run)
    (hp1 : w.pipe1Ok = true) (hp2 : w.pipe2Ok = true) (hf : w.forkOk = true)
    (hw : w.waitOk = true) (hst : w.childStatus = ChildStatus.exited 0)
    (hwl : run.pumpRes.final.writelen ≠ inp.length) :
    run.ret = -1 := by
  obtain ⟨ex, _, hrun⟩ := popen2_inv h hp1 hp2 hf
  rw [hrun] at hwl ⊢
  exact finishRun_ret_zero_incomplete hw hst hwl

/-- Instantiation of `incomplete_write_returns_neg_one`: a child that exits 0
immediately, before any of the two input bytes could be written. -/
theorem incomplete_write_returns_neg_one_w :
    ∃ run, popen2 [1, 2] 8 (wEarlyExit (ChildStatus.exited 0)) = some run ∧
      run.ret = -1 := by
  have h : popen2 [1, 2] 8 (wEarlyExit (ChildStatus.exited 0)) =
      some ((popen2 [1, 2] 8
        (wEarlyExit (ChildStatus.exited 0))).getD dummyRun) := by decide
  exact ⟨_, h, incomplete_write_returns_neg_one h rfl rfl rfl rfl rfl
    (by decide)⟩

/-- C7: on every path on which the fork succeeded and the call returns, the
child is reaped by exactly one `waitpid` call, whatever way the pump loop
exited. -/
theorem child_reaped_once
    {inp : List Nat} {outlen : Nat} {w : World} {run : Run}
    (h : popen2 inp outlen w = some run)
    (hp1 : w.pipe1Ok = true) (hp2 : w.pipe2Ok = true)
    (hf : w.forkOk = true) :
    run.waits = 1 := by
  obtain ⟨ex, _, hrun⟩ := popen2_inv h hp1 hp2 hf
  rw [hrun]
  rfl

/-- Instantiation of `child_reaped_once` on an error path: the first `poll`
fails, the pump loop aborts, and the child is still reaped exactly once. -/
theorem child_reaped_once_w :
    ∃ run, popen2 [7] 4 (wPollFail (ChildStatus.exited 0)) = some run ∧
      run.waits = 1 := by
  have h : popen2 [7] 4 (wPollFail (ChildStatus.exited 0)) =
      some ((popen2 [7] 4
        (wPollFail (ChildStatus.exited 0))).getD dummyRun) := by decide
  exact ⟨_, h, child_reaped_once h rfl rfl rfl⟩

/-- C10: when the child exits with a nonzero status `S` and the input was not
fully delivered, the nonzero-status classification wins: the call returns
`-S` (so not the incomplete-write sentinel -1 whenever `S` is not 1). -/
theorem nonzero_exit_precedes_incomplete_write
    {inp : List Nat} {outlen : Nat} {w : World} {run : Run} {S : Nat}
    (h : popen2 inp outlen w = some run)
    (hp1 : w.pipe1Ok = true) (hp2 : w.pipe2Ok = true) (hf : w.forkOk = true)
    (hw : w.waitOk = true) (hst : w.childStatus = ChildStatus.exited S)
    (hS : S ≠ 0)
    (hwl : run.pumpRes.final.writelen < inp.length) :
    run.ret = -(S : Int) ∧ (S ≠ 1 → run.ret ≠ -1) := by
  obtain ⟨ex, _, hrun⟩ := popen2_inv h hp1 hp2 hf
  rw [hrun]
  refine ⟨finishRun_ret_nonzero_exit hw hst hS, fun h1 => ?_⟩
  rw [finishRun_ret_nonzero_exit hw hst hS]
  omega

/-- Instantiation of `nonzero_exit_precedes_incomplete_write`: a child that
exits with status 5 before reading any of its two input bytes yields -5. -/
theorem nonzero_exit_precedes_incomplete_write_w :
    ∃ run, popen2 [1, 2] 8 (wEarlyExit (ChildStatus.exited 5)) = some run ∧
      run.ret = -5 ∧ run.ret ≠ -1 := by
  have h : popen2 [1, 2] 8 (wEarlyExit (ChildStatus.exited 5)) =
      some ((popen2 [1, 2] 8
        (wEarlyExit (ChildStatus.exited 5))).getD dummyRun) := by decide
  have hm := nonzero_exit_precedes_incomplete_write h rfl rfl rfl rfl rfl
    (by decide) (by decide)
  exact ⟨_, h, hm.1, hm.2 (by decide)⟩


/-- Total number of times the parent closes the stdin write end: in-loop
closes (line 133) plus the cleanup close (line 179). -/
def stdinCloseCount (run : Run) : Nat :=
  (closeVals run.pumpRes.log).length +
    (match run.cleanupCloseAt with
     | some _ => 1
     | none => 0)

theorem finishRun_opened (inlen : Nat) (w : World) (pr : PumpResult)
    (ex : PumpExit) :
    (finishRun inlen w pr ex).opened =
      [Fd.stdinRead, Fd.stdinWrite, Fd.stdoutRead, Fd.stdoutWrite] := rfl

theorem finishRun_cleanupCloseAt (inlen : Nat) (w : World) (pr : PumpResult)
    (ex : PumpExit) :
    (finishRun inlen w pr ex).cleanupCloseAt =
      if pr.final.stdinOpen then some pr.final.writelen else none := rfl

theorem finishRun_closed_cases {inlen : Nat} {w : World} {pr : PumpResult}
    {ex : PumpExit}
    (hc : (closeVals pr.log = [] ∧ pr.final.stdinOpen = true) ∨
      ∃ a, closeVals pr.log = [a] ∧ pr.final.stdinOpen = false) :
    (finishRun inlen w pr ex).closed =
      [Fd.stdinRead, Fd.stdoutWrite, Fd.stdinWrite, Fd.stdoutRead] := by
  rcases hc with ⟨hc, hso⟩ | ⟨a, hc, hso⟩ <;> simp [finishRun, hc, hso]

/-- C3: with `read` honoring its request bound `outlen - readlen`, the output
cursor never exceeds the output capacity at any loop-top state nor at the
final state, so no byte is ever stored at an offset at or beyond `outlen`. -/
theorem output_cursor_bounded
    {inp : List Nat} {outlen : Nat} {w : World} {run : Run}
    (h : popen2 inp outlen w = some run)
    (hp1 : w.pipe1Ok = true) (hp2 : w.pipe2Ok = true) (hf : w.forkOk = true)
    (hwf : evAll inp.length outlen (wfReadP outlen) initState w.events =
      true) :
    (∀ t ∈ run.pumpRes.visited, t.out.length ≤ outlen) ∧
      run.pumpRes.final.out.length ≤ outlen := by
  obtain ⟨ex, _, hrun⟩ := popen2_inv h hp1 hp2 hf
  rw [hrun, finishRun_pumpRes]
  exact pump_out_le inp.length outlen w.events initState hwf
    (by simp [initState])

/-- Instantiation of `output_cursor_bounded` on an identity run with two
input bytes and capacity five. -/
theorem output_cursor_bounded_w :
    ∃ run, popen2 [3, 4] 5 wId = some run ∧
      ((∀ t ∈ run.pumpRes.visited, t.out.length ≤ 5) ∧
        run.pumpRes.final.out.length ≤ 5) := by
  have h : popen2 [3, 4] 5 wId =
      some ((popen2 [3, 4] 5 wId).getD dummyRun) := by decide
  exact ⟨_, h, output_cursor_bounded h rfl rfl rfl (by decide)⟩

/-- C6, amended: the parent's stdin write end is closed exactly once, and
any close performed inside the pump loop happens precisely when the write
cursor equals the input length; the cleanup close during reap carries no such
guarantee. -/
theorem stdin_write_end_closed_once
    {inp : List Nat} {outlen : Nat} {w : World} {run : Run}
    (h : popen2 inp outlen w = some run)
    (hp1 : w.pipe1Ok = true) (hp2 : w.pipe2Ok = true)
    (hf : w.forkOk = true) :
    stdinCloseCount run = 1 ∧
      ∀ k ∈ closeVals run.pumpRes.log, k = inp.length := by
  obtain ⟨ex, _, hrun⟩ := popen2_inv h hp1 hp2 hf
  rw [hrun]
  have hacct := pump_close_acct inp.length outlen w.events initState
  have hin : (if initState.stdinOpen then 1 else 0) = 1 := rfl
  rw [hin] at hacct
  constructor
  · cases hso : (pump inp.length outlen initState w.events).final.stdinOpen <;>
      rw [hso] at hacct <;>
      simp only [stdinCloseCount, finishRun_pumpRes,
        finishRun_cleanupCloseAt, hso] <;>
      simp at hacct ⊢ <;> exact hacct
  · rw [finishRun_pumpRes]
    exact pump_close_vals inp.length outlen w.events initState

/-- C6 counterexample: with one input byte and a first `poll` that fails, the
pump loop aborts with the write cursor still 0 and the stdin write end still
open, so its only close (the reap cleanup close, line 179) happens with the
cursor equal to 0, not to the input length 1. -/
theorem stdin_close_timing_cx :
    ∃ run, popen2 [7] 4 (wPollFail (ChildStatus.exited 0)) = some run ∧
      run.cleanupCloseAt = some 0 ∧ closeVals run.pumpRes.log = [] ∧
      (0 : Nat) ≠ ([7] : List Nat).length := by
  have h : popen2 [7] 4 (wPollFail (ChildStatus.exited 0)) =
      some ((popen2 [7] 4
        (wPollFail (ChildStatus.exited 0))).getD dummyRun) := by decide
  exact ⟨_, h, by decide, by decide, by decide⟩

/-- Instantiation of `stdin_write_end_closed_once` on an identity run: the
one close is the in-loop close at cursor = input length. -/
theorem stdin_write_end_closed_once_w :
    ∃ run, popen2 [3, 4] 5 wId = some run ∧
      (stdinCloseCount run = 1 ∧
        ∀ k ∈ closeVals run.pumpRes.log, k = ([3, 4] : List Nat).length) := by
  have h : popen2 [3, 4] 5 wId =
      some ((popen2 [3, 4] 5 wId).getD dummyRun) := by decide
  exact ⟨_, h, stdin_write_end_closed_once h rfl rfl rfl⟩

/-- C8, amended: on every exit path reached after a successful fork, the
four pipe descriptors the call opened are each closed exactly once (the
closed list is a permutation of the opened list); the pipe-failure and
fork-failure early returns do not enjoy this. -/
theorem fds_closed_after_fork
    {inp : List Nat} {outlen : Nat} {w : World} {run : Run}
    (h : popen2 inp outlen w = some run)
    (hp1 : w.pipe1Ok = true) (hp2 : w.pipe2Ok = true)
    (hf : w.forkOk = true) :
    run.closed.Perm run.opened := by
  obtain ⟨ex, _, hrun⟩ := popen2_inv h hp1 hp2 hf
  rw [hrun]
  have hacct := pump_close_acct inp.length outlen w.events initState
  have hcases : (closeVals (pump inp.length outlen initState w.events).log
        = [] ∧
      (pump inp.length outlen initState w.events).final.stdinOpen = true) ∨
      ∃ a, closeVals (pump inp.length outlen initState w.events).log = [a] ∧
        (pump inp.length outlen initState w.events).final.stdinOpen =
          false := by
    have hin : (if initState.stdinOpen then 1 else 0) = 1 := rfl
    rw [hin] at hacct
    cases hso : (pump inp.length outlen initState w.events).final.stdinOpen
    · rw [hso] at hacct
      simp at hacct
      obtain ⟨a, ha⟩ := List.length_eq_one.mp hacct
      exact Or.inr ⟨a, ha, rfl⟩
    · rw [hso] at hacct
      simp at hacct
      exact Or.inl ⟨hacct, rfl⟩
  rw [finishRun_closed_cases hcases, finishRun_opened]
  decide

/-- C8 counterexample: when `fork` fails both pipes were already created,
yet `popen2` returns -1 immediately without closing any of the four
descriptors (lines 70-72). -/
theorem fork_fail_leaks_fds_cx :
    ∃ run, popen2 [] 4 wForkFail = some run ∧
      run.opened =
        [Fd.stdinRead, Fd.stdinWrite, Fd.stdoutRead, Fd.stdoutWrite] ∧
      run.closed = [] ∧ run.ret = -1 := by
  have h : popen2 [] 4 wForkFail =
      some ((popen2 [] 4 wForkFail).getD dummyRun) := by decide
  exact ⟨_, h, by decide, by decide, by decide⟩

/-- Instantiation of `fds_closed_after_fork` on an identity run. -/
theorem fds_closed_after_fork_w :
    ∃ run, popen2 [3, 4] 5 wId = some run ∧
      run.closed.Perm run.opened := by
  have h : popen2 [3, 4] 5 wId =
      some ((popen2 [3, 4] 5 wId).getD dummyRun) := by decide
  exact ⟨_, h, fds_closed_after_fork h rfl rfl rfl⟩


theorem healthyP_elim {inlen outlen : Nat} {s : PumpState} {p : PollPass}
    (h : healthyP inlen outlen s (PollEvent.ok p) = true) :
    p.poth = false ∧ p.poth1 = false ∧
    (p.pout = true → s.writelen < inlen →
      ∃ n, p.wres = some n ∧ n ≤ inlen - s.writelen) ∧
    (p.pin = true → ∃ bs, p.rres = some bs ∧
      bs.length ≤ outlen - s.out.length) := by
  simp only [healthyP, Bool.and_eq_true, Bool.not_eq_true',
    Bool.or_eq_true, decide_eq_true_eq] at h
  obtain ⟨⟨⟨ho, ho1⟩, hwq⟩, hrq⟩ := h
  refine ⟨ho, ho1, ?_, ?_⟩
  · intro hpout hlt
    rcases hwq with hq | hq
    · simp [hpout, hlt] at hq
    · cases hw : p.wres with
      | none => rw [hw] at hq; simp at hq
      | some n => rw [hw] at hq; exact ⟨n, rfl, by simpa using hq⟩
  · intro hpin
    rcases hrq with hq | hq
    · simp [hpin] at hq
    · cases hr : p.rres with
      | none => rw [hr] at hq; simp at hq
      | some bs => rw [hr] at hq; exact ⟨bs, rfl, by simpa using hq⟩

theorem writeLeg_none_elim {inlen : Nat} {s : PumpState} {p : PollPass}
    (h : writeLeg inlen s p = none) :
    p.pout = true ∧ s.writelen < inlen ∧ p.wres = none := by
  unfold writeLeg at h
  repeat' split at h
  all_goals simp_all

theorem step_not_err {inlen outlen : Nat} {s : PumpState} {p : PollPass}
    (hpoth : p.poth = false) (hpoth1 : p.poth1 = false)
    (hw : p.pout = true → s.writelen < inlen → ∃ n, p.wres = some n)
    (hr : p.pin = true → ∃ bs, p.rres = some bs) :
    ∀ s2 lg, step inlen outlen s p ≠ StepRes.brk s2 PumpExit.err lg := by
  intro s2 lg hcontra
  unfold step at hcontra
  cases hwleg : writeLeg inlen s p with
  | none =>
    obtain ⟨h1, h2, h3⟩ := writeLeg_none_elim hwleg
    obtain ⟨n, hn⟩ := hw h1 h2
    rw [h3] at hn
    exact Option.noConfusion hn
  | some s1lg =>
    obtain ⟨s1, lg1⟩ := s1lg
    rw [hwleg] at hcontra
    dsimp only at hcontra
    rw [hpoth1] at hcontra
    simp only [Bool.false_eq_true, if_false] at hcontra
    unfold readHup at hcontra
    repeat' split at hcontra
    all_goals simp_all

theorem pump_no_err (inlen outlen : Nat) :
    ∀ (es : List PollEvent) (s : PumpState),
    evAll inlen outlen (healthyP inlen outlen) s es = true →
    (pump inlen outlen s es).exit ≠ some PumpExit.err := by
  intro es
  induction es with
  | nil => intro s _; simp [pump]
  | cons e es ih =>
    intro s hev
    cases e with
    | fail => simp [evAll, healthyP] at hev
    | ok p =>
      obtain ⟨hP, hcont⟩ := evAll_cons_ok hev
      obtain ⟨hpoth, hpoth1, hwq, hrq⟩ := healthyP_elim hP
      cases hs : step inlen outlen s p with
      | brk s2 ex lg =>
        cases ex with
        | err =>
          exact absurd hs (step_not_err hpoth hpoth1
            (fun h1 h2 => (hwq h1 h2).elim fun n hn => ⟨n, hn.1⟩)
            (fun h1 => (hrq h1).elim fun bs hbs => ⟨bs, hbs.1⟩) s2 lg)
        | ok => simp [pump, hs]
        | overflow => simp [pump, hs]
      | cont s2 lg =>
        have ihs := ih s2 (hcont s2 lg hs)
        simpa [pump, hs] using ihs

theorem writeLeg_writelen_inlen_le {inlen : Nat} {s : PumpState}
    {p : PollPass} {s1 : PumpState} {lg1 : List GhostEv}
    (h : writeLeg inlen s p = some (s1, lg1)) (hle : inlen ≤ s.writelen) :
    s1.writelen = s.writelen := by
  unfold writeLeg at h
  repeat' split at h
  all_goals first
    | exact Option.noConfusion h
    | (simp only [Option.some.injEq, Prod.mk.injEq] at h
       obtain ⟨h1, h2⟩ := h
       subst h1
       first
         | rfl
         | omega)

theorem step_writelen_zero {outlen : Nat} {s : PumpState} {p : PollPass} :
    (stepDest (step 0 outlen s p)).1.writelen = s.writelen := by
  unfold step
  cases hw : writeLeg 0 s p with
  | none => rfl
  | some s1lg =>
    obtain ⟨s1, lg1⟩ := s1lg
    have h1 : s1.writelen = s.writelen :=
      writeLeg_writelen_inlen_le hw (Nat.zero_le _)
    dsimp only
    unfold readHup
    repeat' split
    all_goals simp [stepDest, h1]

theorem pump_writelen_zero (outlen : Nat) :
    ∀ (es : List PollEvent) (s : PumpState),
    (pump 0 outlen s es).final.writelen = s.writelen := by
  intro es
  induction es with
  | nil => intro s; rfl
  | cons e es ih =>
    intro s
    cases e with
    | fail => rfl
    | ok p =>
      have hstep := @step_writelen_zero outlen s p
      cases hs : step 0 outlen s p with
      | brk s2 ex lg =>
        rw [hs] at hstep
        simpa [pump, hs, stepDest] using hstep
      | cont s2 lg =>
        rw [hs] at hstep
        dsimp [stepDest] at hstep
        have ihs := ih s2
        simp [pump, hs, ihs, hstep]

theorem noReadBeforeClose_cons_close (k : Nat) (rest : List GhostEv) :
    noReadBeforeClose (GhostEv.closeStdin k :: rest) = true := by
  simp [noReadBeforeClose]

theorem step_zero_head_close {outlen : Nat} {p : PollPass}
    (hpout : p.pout = true) :
    ∃ rest, (stepDest (step 0 outlen initState p)).2 =
      GhostEv.closeStdin 0 :: rest := by
  have hwleg : writeLeg 0 initState p =
      some (⟨[], 0, false⟩, [GhostEv.closeStdin 0]) := by
    simp [writeLeg, hpout, initState]
  unfold step
  rw [hwleg]
  dsimp only
  unfold readHup
  repeat' split
  all_goals simp [stepDest]

theorem pump_zero_head_close {outlen : Nat} {p : PollPass}
    {es : List PollEvent} (hpout : p.pout = true) :
    ∃ rest, (pump 0 outlen initState (PollEvent.ok p :: es)).log =
      GhostEv.closeStdin 0 :: rest := by
  have hhead := @step_zero_head_close outlen p hpout
  cases hs : step 0 outlen initState p with
  | brk s2 ex lg =>
    rw [hs] at hhead
    dsimp [stepDest] at hhead
    obtain ⟨rest, hr⟩ := hhead
    exact ⟨rest, by simp [pump, hs, hr]⟩
  | cont s2 lg =>
    rw [hs] at hhead
    dsimp [stepDest] at hhead
    obtain ⟨rest, hr⟩ := hhead
    exact ⟨rest ++ (pump 0 outlen s2 es).log, by simp [pump, hs, hr]⟩

theorem evAll_and_left (inlen outlen : Nat)
    (P Q : PumpState → PollEvent → Bool) :
    ∀ (es : List PollEvent) (s : PumpState),
    evAll inlen outlen (fun s e => P s e && Q s e) s es = true →
    evAll inlen outlen P s es = true := by
  intro es
  induction es with
  | nil => intro s h; rfl
  | cons e es ih =>
    intro s h
    cases e with
    | fail =>
      simp only [evAll, Bool.and_eq_true] at h ⊢
      exact ⟨h.1.1, trivial⟩
    | ok p =>
      simp only [evAll, Bool.and_eq_true] at h ⊢
      refine ⟨h.1.1, ?_⟩
      have h2 := h.2
      try dsimp only at h2 ⊢
      cases hs : step inlen outlen s p with
      | brk s2 ex lg => rfl
      | cont s2 lg =>
        rw [hs] at h2
        dsimp only at h2 ⊢
        exact ih s2 h2

theorem readlenFinal_ne_err {ex : PumpExit} {final : PumpState}
    (h : ex ≠ PumpExit.err) :
    readlenFinal ex final = (final.out.length : Int) := by
  cases ex <;> simp_all [readlenFinal]

/-- C9 counterexample: empty input, capacity 4, a child that writes nothing
and exits 0 before the parent's first `poll`, which therefore reports
POLLOUT together with POLLERR on the stdin write end.  The write leg closes
the stdin write end, then the `fds[1].revents != 0` check (line 140) aborts
the pump with `readlen = -1`, and the call returns -1 even though the child
exited 0 after producing at most capacity bytes — so the call does not
always return the output byte count as success. -/
theorem zero_input_race_returns_neg_cx :
    ∃ run, popen2 [] 4 wZeroErr = some run ∧
      wZeroErr.childStatus = ChildStatus.exited 0 ∧
      run.pumpRes.final.out.length ≤ 4 ∧
      run.ret = -1 ∧ run.ret < 0 ∧
      noReadBeforeClose run.pumpRes.log = true := by
  have h : popen2 [] 4 wZeroErr =
      some ((popen2 [] 4 wZeroErr).getD dummyRun) := by decide
  exact ⟨_, h, by decide, by decide, by decide, by decide, by decide⟩

/-- C9, amended: with empty input the stdin write end is always closed
before any output byte is read (the write leg of a pass runs before the
read leg, and an empty pipe is writable so the first successful poll
performs the close); and the call returns the child's output byte count as
success when the child exits 0 and additionally no error readiness
condition is reported on either descriptor and every attempted syscall
succeeds.  Without that proviso a clean exit can still yield -1 (see
`zero_input_race_returns_neg_cx`). -/
theorem zero_input_close_then_success
    {outlen : Nat} {w : World} {run : Run}
    (h : popen2 [] outlen w = some run)
    (hp1 : w.pipe1Ok = true) (hp2 : w.pipe2Ok = true)
    (hf : w.forkOk = true) :
    (evAll 0 outlen writableP initState w.events = true →
      noReadBeforeClose run.pumpRes.log = true) ∧
    (w.waitOk = true → w.childStatus = ChildStatus.exited 0 →
      evAll 0 outlen (fun s e => healthyP 0 outlen s e && writableP s e)
        initState w.events = true →
      run.ret = (run.pumpRes.final.out.length : Int) ∧ 0 ≤ run.ret) := by
  obtain ⟨ex, hex, hrun⟩ := popen2_inv h hp1 hp2 hf
  simp only [List.length_nil] at hex hrun
  constructor
  · intro hwr
    rcases hevs : w.events with _ | ⟨e, es⟩
    · rw [hevs] at hex
      simp [pump] at hex
    · cases e with
      | fail =>
        rw [hrun, finishRun_pumpRes, hevs]
        rfl
      | ok p =>
        rw [hevs] at hwr
        have hP := (evAll_cons_ok hwr).1
        have hpout : p.pout = true := by
          simpa [writableP, initState] using hP
        obtain ⟨rest, hlog⟩ :=
          @pump_zero_head_close outlen p es hpout
        rw [hrun, finishRun_pumpRes, hevs, hlog]
        exact noReadBeforeClose_cons_close 0 rest
  · intro hwk hst hh
    have hnoerr : ex ≠ PumpExit.err := by
      intro hcontra
      subst hcontra
      exact pump_no_err 0 outlen w.events initState
        (evAll_and_left 0 outlen _ _ w.events initState hh) hex
    have hwl : (pump 0 outlen initState w.events).final.writelen = 0 :=
      pump_writelen_zero outlen w.events initState
    have hret : run.ret = (run.pumpRes.final.out.length : Int) := by
      rw [hrun, finishRun_pumpRes]
      rw [finishRun_ret_zero_complete hwk hst (by simpa using hwl)]
      exact readlenFinal_ne_err hnoerr
    exact ⟨hret, by rw [hret]; exact Int.natCast_nonneg _⟩

/-- Instantiation of `zero_input_close_then_success`: empty input, capacity
four, a child that writes two bytes and exits 0 after the stdin write end
was closed on the first pass; the returned count is 2. -/
theorem zero_input_close_then_success_w :
    ∃ run, popen2 [] 4 wZeroIn = some run ∧
      noReadBeforeClose run.pumpRes.log = true ∧
      (run.ret = (run.pumpRes.final.out.length : Int) ∧ 0 ≤ run.ret) ∧
      run.ret = 2 := by
  have h : popen2 [] 4 wZeroIn =
      some ((popen2 [] 4 wZeroIn).getD dummyRun) := by decide
  have hm := zero_input_close_then_success h rfl rfl rfl
  exact ⟨_, h, hm.1 (by decide), hm.2 rfl rfl (by decide), by decide⟩


theorem idChildP_elim {inp : List Nat} {outlen : Nat} {s : PumpState}
    {p : PollPass} (h : idChildP inp outlen s (PollEvent.ok p) = true) :
    p.poth = false ∧ p.poth1 = false ∧
    (p.pout = true → s.writelen < inp.length →
      ∃ n, p.wres = some n ∧ n ≤ inp.length - s.writelen) ∧
    (p.pin = true → ∃ bs, p.rres = some bs ∧
      bs.length ≤ outlen - s.out.length ∧
      (s.out ++ bs) <+: inp.take (postW inp.length s p) ∧
      (p.phup = true → s.out ++ bs = inp ∨
        outlen ≤ s.out.length + bs.length)) ∧
    (p.phup = true → p.pin = false → s.out = inp) := by
  simp only [idChildP, Bool.and_eq_true, Bool.not_eq_true',
    Bool.or_eq_true, decide_eq_true_eq] at h
  obtain ⟨⟨⟨⟨ho, ho1⟩, hwq⟩, hrq⟩, hhq⟩ := h
  refine ⟨ho, ho1, ?_, ?_, ?_⟩
  · intro hpout hlt
    rcases hwq with hq | hq
    · simp [hpout, hlt] at hq
    · cases hw : p.wres with
      | none => rw [hw] at hq; simp at hq
      | some n => rw [hw] at hq; exact ⟨n, rfl, by simpa using hq⟩
  · intro hpin
    rcases hrq with hq | hq
    · simp [hpin] at hq
    · cases hr : p.rres with
      | none => rw [hr] at hq; simp at hq
      | some bs =>
        rw [hr] at hq
        simp only [Bool.and_eq_true, Bool.or_eq_true, Bool.not_eq_true',
          decide_eq_true_eq, List.isPrefixOf_iff_prefix] at hq
        obtain ⟨⟨h1, h2⟩, h3⟩ := hq
        refine ⟨bs, rfl, h1, h2, ?_⟩
        intro hphup
        rcases h3 with h3 | h3
        · rw [h3] at hphup; exact absurd hphup (by simp)
        · exact h3
  · intro hphup hpin
    rcases hhq with hq | hq
    · simp [hphup, hpin] at hq
    · exact hq

theorem writeLeg_writelen_bound {inlen : Nat} {s : PumpState} {p : PollPass}
    {s1 : PumpState} {lg1 : List GhostEv}
    (h : writeLeg inlen s p = some (s1, lg1))
    (hb : p.pout = true → s.writelen < inlen →
      ∀ n, p.wres = some n → n ≤ inlen - s.writelen)
    (hle : s.writelen ≤ inlen) : s1.writelen ≤ inlen := by
  unfold writeLeg at h
  repeat' split at h
  all_goals first
    | exact Option.noConfusion h
    | (simp only [Option.some.injEq, Prod.mk.injEq] at h
       obtain ⟨h1, h2⟩ := h
       subst h1
       simp_all
       try omega)

theorem readHup_id {inp : List Nat} {outlen : Nat} {s s1 : PumpState}
    {p : PollPass} {lg1 : List GhostEv}
    (hcap : inp.length ≤ outlen)
    (hout1 : s1.out = s.out)
    (hw1 : s1.writelen ≤ inp.length)
    (hpre1 : s1.out <+: inp.take s1.writelen)
    (hpoth : p.poth = false)
    (hread : p.pin = true → ∃ bs, p.rres = some bs ∧
      bs.length ≤ outlen - s.out.length ∧
      (s.out ++ bs) <+: inp.take s1.writelen ∧
      (p.phup = true → s.out ++ bs = inp ∨
        outlen ≤ s.out.length + bs.length))
    (hhup : p.phup = true → p.pin = false → s.out = inp) :
    (∀ s2 lg, readHup outlen s1 p lg1 = StepRes.cont s2 lg →
      s2.out <+: inp.take s2.writelen ∧ s2.writelen ≤ inp.length) ∧
    (∀ s2 ex lg, readHup outlen s1 p lg1 = StepRes.brk s2 ex lg →
      ex ≠ PumpExit.err ∧ s2.out = inp ∧ s2.writelen = inp.length) := by
  unfold readHup
  split
  · rename_i hpin
    obtain ⟨bs, hbs, hlen, hpre, hhupd⟩ := hread hpin
    rw [hbs]
    dsimp only
    have hpreinp : (s.out ++ bs) <+: inp :=
      hpre.trans (List.take_prefix _ _)
    have hlmin : (s.out ++ bs).length ≤ min s1.writelen inp.length := by
      have h0 := hpre.length_le
      simpa using h0
    have hlapp : (s.out ++ bs).length = s.out.length + bs.length := by simp
    split
    · rename_i hovf
      constructor
      · intro s2 lg heq
        exact StepRes.noConfusion heq
      · intro s2 ex lg heq
        injection heq with e1 e2 e3
        subst e1
        subst e2
        have heq2 : (s.out ++ bs).length = inp.length := by
          rw [hout1] at hovf
          omega
        refine ⟨by simp, ?_, ?_⟩
        · simp only [hout1]
          exact hpreinp.eq_of_length heq2
        · simp only []
          omega
    · rename_i hovf
      split
      · rename_i hok
        have hphup : p.phup = true := by
          simp only [Bool.and_eq_true] at hok
          exact hok.1
        have houteq : s.out ++ bs = inp := by
          rcases hhupd hphup with he | he
          · exact he
          · rw [hout1] at hovf
            omega
        constructor
        · intro s2 lg heq
          exact StepRes.noConfusion heq
        · intro s2 ex lg heq
          injection heq with e1 e2 e3
          subst e1
          subst e2
          refine ⟨by simp, ?_, ?_⟩
          · simp only [hout1]
            exact houteq
          · have hleq : (s.out ++ bs).length = inp.length := by
              rw [houteq]
            simp only []
            omega
      · rename_i hnok
        split
        · rename_i herr
          exfalso
          simp only [Bool.or_eq_true] at herr
          rcases herr with h1 | h1
          · rw [h1, hpoth] at hnok
            simp at hnok
          · rw [h1] at hpoth
            exact Bool.noConfusion hpoth
        · constructor
          · intro s2 lg heq
            injection heq with e1 e2
            subst e1
            constructor
            · simp only [hout1]
              exact hpre
            · simpa using hw1
          · intro s2 ex lg heq
            exact StepRes.noConfusion heq
  · rename_i hpin
    have hpinf : p.pin = false := by
      revert hpin
      cases p.pin <;> simp
    split
    · rename_i hok
      have hphup : p.phup = true := by
        simp only [Bool.and_eq_true] at hok
        exact hok.1
      have houteq : s.out = inp := hhup hphup hpinf
      constructor
      · intro s2 lg heq
        exact StepRes.noConfusion heq
      · intro s2 ex lg heq
        injection heq with e1 e2 e3
        subst e1
        subst e2
        refine ⟨by simp, by rw [hout1]; exact houteq, ?_⟩
        have h1 : s1.out.length ≤ min s1.writelen inp.length := by
          have h0 := hpre1.length_le
          simpa using h0
        have h2 : s1.out.length = inp.length := by
          rw [hout1, houteq]
        omega
    · rename_i hnok
      split
      · rename_i herr
        exfalso
        simp only [Bool.or_eq_true] at herr
        rcases herr with h1 | h1
        · rw [h1, hpoth] at hnok
          simp at hnok
        · rw [h1] at hpoth
          exact Bool.noConfusion hpoth
      · constructor
        · intro s2 lg heq
          injection heq with e1 e2
          subst e1
          exact ⟨hpre1, hw1⟩
        · intro s2 ex lg heq
          exact StepRes.noConfusion heq

theorem step_id {inp : List Nat} {outlen : Nat} {s : PumpState}
    {p : PollPass} (hcap : inp.length ≤ outlen)
    (hid : idChildP inp outlen s (PollEvent.ok p) = true)
    (hinv1 : s.out <+: inp.take s.writelen)
    (hinv2 : s.writelen ≤ inp.length) :
    (∀ s2 lg, step inp.length outlen s p = StepRes.cont s2 lg →
      s2.out <+: inp.take s2.writelen ∧ s2.writelen ≤ inp.length) ∧
    (∀ s2 ex lg, step inp.length outlen s p = StepRes.brk s2 ex lg →
      ex ≠ PumpExit.err ∧ s2.out = inp ∧ s2.writelen = inp.length) := by
  obtain ⟨hpoth, hpoth1, hwq, hrq, hhq⟩ := idChildP_elim hid
  cases hwleg : writeLeg inp.length s p with
  | none =>
    obtain ⟨h1, h2, h3⟩ := writeLeg_none_elim hwleg
    obtain ⟨n, hn, _⟩ := hwq h1 h2
    rw [h3] at hn
    exact Option.noConfusion hn
  | some s1lg =>
    obtain ⟨s1, lg1⟩ := s1lg
    have hout1 : s1.out = s.out := writeLeg_out hwleg
    have hwle : s.writelen ≤ s1.writelen := writeLeg_writelen_le hwleg
    have hw1 : s1.writelen ≤ inp.length := by
      refine writeLeg_writelen_bound hwleg ?_ hinv2
      intro h1 h2 n hn
      obtain ⟨m, hm, hmb⟩ := hwq h1 h2
      rw [hn] at hm
      injection hm with he
      omega
    have hpre1 : s1.out <+: inp.take s1.writelen := by
      rw [hout1]
      exact hinv1.trans (List.take_prefix_take_left inp hwle)
    have hpostW : postW inp.length s p = s1.writelen := by
      unfold postW
      rw [hwleg]
    rw [hpostW] at hrq
    unfold step
    rw [hwleg]
    dsimp only
    rw [hpoth1]
    simp only [Bool.false_eq_true, if_false]
    exact readHup_id hcap hout1 hw1 hpre1 hpoth hrq hhq

theorem pump_id (inp : List Nat) (outlen : Nat) (hcap : inp.length ≤ outlen) :
    ∀ (es : List PollEvent) (s : PumpState),
    evAll inp.length outlen (idChildP inp outlen) s es = true →
    s.out <+: inp.take s.writelen → s.writelen ≤ inp.length →
    ∀ ex, (pump inp.length outlen s es).exit = some ex →
      ex ≠ PumpExit.err ∧
      (pump inp.length outlen s es).final.out = inp ∧
      (pump inp.length outlen s es).final.writelen = inp.length := by
  intro es
  induction es with
  | nil =>
    intro s _ _ _ ex hex
    simp [pump] at hex
  | cons e es ih =>
    intro s hev hi1 hi2 ex hex
    cases e with
    | fail => simp [evAll, idChildP] at hev
    | ok p =>
      obtain ⟨hP, hcont⟩ := evAll_cons_ok hev
      obtain ⟨hcontinv, hbrk⟩ := step_id hcap hP hi1 hi2
      cases hs : step inp.length outlen s p with
      | brk s2 ex2 lg =>
        obtain ⟨hne, ho, hwl⟩ := hbrk s2 ex2 lg hs
        simp only [pump, hs] at hex ⊢
        simp only [Option.some.injEq] at hex
        subst hex
        exact ⟨hne, ho, hwl⟩
      | cont s2 lg =>
        obtain ⟨hj1, hj2⟩ := hcontinv s2 lg hs
        simp only [pump, hs] at hex ⊢
        exact ih s2 (hcont s2 lg hs) hj1 hj2 ex hex

/-- C1: for an identity-transform child and input no longer than the output
capacity, the call returns the input length and the output buffer holds
exactly the input bytes. -/
theorem identity_transform_returns_input
    {inp : List Nat} {outlen : Nat} {w : World} {run : Run}
    (h : popen2 inp outlen w = some run)
    (hp1 : w.pipe1Ok = true) (hp2 : w.pipe2Ok = true) (hf : w.forkOk = true)
    (hwk : w.waitOk = true) (hst : w.childStatus = ChildStatus.exited 0)
    (hcap : inp.length ≤ outlen)
    (hid : evAll inp.length outlen (idChildP inp outlen)
      initState w.events = true) :
    run.ret = (inp.length : Int) ∧ run.pumpRes.final.out = inp := by
  obtain ⟨ex, hex, hrun⟩ := popen2_inv h hp1 hp2 hf
  obtain ⟨hne, hout, hwl⟩ := pump_id inp outlen hcap w.events initState hid
    (by simp [initState]) (by simp [initState]) ex hex
  constructor
  · rw [hrun]
    rw [finishRun_ret_zero_complete hwk hst hwl]
    rw [readlenFinal_ne_err hne]
    rw [hout]
  · rw [hrun, finishRun_pumpRes]
    exact hout

/-- Instantiation of `identity_transform_returns_input`: input bytes [3, 4],
capacity 5, an identity child whose whole output arrives with the hang-up. -/
theorem identity_transform_returns_input_w :
    ∃ run, popen2 [3, 4] 5 wId = some run ∧
      (run.ret = (([3, 4] : List Nat).length : Int) ∧
        run.pumpRes.final.out = [3, 4]) := by
  have h : popen2 [3, 4] 5 wId =
      some ((popen2 [3, 4] 5 wId).getD dummyRun) := by decide
  exact ⟨_, h, identity_transform_returns_input h rfl rfl rfl rfl rfl
    (by decide) (by decide)⟩

end Popen2
